import Mathlib

/-
  Verification of the LGRPC runtime (repository golearn) against its
  natural-language specification.  The Go sources under LGRPC/ are shallowly
  embedded below: structs become structures, methods become functions on an
  explicit state, machine integers become Nat, fallible operations return
  Except, and the gob wire is a list of decoded values.
-/

/-- Wire header, from codec/codec.go: ServiceMethod, Seq (uint64), Error. -/
structure Header where
  ServiceMethod : String
  Seq : Nat
  Error : String
deriving DecidableEq, Repr

/-- A gob-encodable value: a header or one of the body shapes the spec calls
supported (integers, strings, keyed mappings, sequences).  Empty mappings and
sequences are representable as vmap [] and vslice []. -/
inductive GobVal where
  | header (h : Header)
  | vint (n : Int)
  | vstr (s : String)
  | vmap (entries : List (String × Int))
  | vslice (elems : List Int)
deriving DecidableEq, Repr

/-- State of a GobCodec as seen on the wire: the list of gob values the
codec has actually encoded onto the connection.  A fresh codec has written
nothing. -/
structure GobCodec where
  written : List GobVal
deriving DecidableEq, Repr

/-- Embedding of GobCodec.Write from codec/codec.go.  The source body is
literally `return nil`: it encodes neither the header nor the body, so the
connection state is unchanged and no error is reported. -/
def GobCodec.Write (c : GobCodec) (_h : Header) (_body : GobVal) : Except String GobCodec :=
  Except.ok c

/-- Embedding of GobCodec.ReadHeader: decode the next value from the peer
stream into a Header.  Decoding at end of stream fails with EOF, exactly as
gob.Decoder.Decode does on an exhausted connection. -/
def GobCodec.ReadHeader (vals : List GobVal) : Except String (Header × List GobVal) :=
  match vals with
  | [] => Except.error "EOF"
  | GobVal.header h :: rest => Except.ok (h, rest)
  | _ => Except.error "gob: type mismatch"

/-- Embedding of GobCodec.ReadBody: decode the next non-header value. -/
def GobCodec.ReadBody (vals : List GobVal) : Except String (GobVal × List GobVal) :=
  match vals with
  | [] => Except.error "EOF"
  | GobVal.header _ :: _ => Except.error "gob: type mismatch"
  | v :: rest => Except.ok (v, rest)

/- ===================== server.go / service.go ===================== -/

/-- Outcome of a Go computation that can also panic at run time. -/
inductive GoResult (α : Type) where
  | ok (a : α)
  | err (msg : String)
  | panicked (msg : String)
deriving DecidableEq, Repr

/-- Method descriptor, from service.go methodType. -/
structure MethodType where
  argTypeName : String
  replyTypeName : String
  numCalls : Nat
deriving DecidableEq, Repr

/-- Service descriptor, from service.go: name plus method map. -/
structure Service where
  name : String
  method : List (String × MethodType)
deriving DecidableEq, Repr

/-- A value stored in Server.serviceMap.  The source stores the server
object itself (LoadOrStore(ser.name, s)); findService expects a service
object.  Both possibilities are represented. -/
inductive MapVal where
  | serverObj
  | serviceObj (s : Service)
deriving DecidableEq, Repr

/-- Server state, from server.go: the serviceMap. -/
structure Server where
  serviceMap : List (String × MapVal)
deriving DecidableEq, Repr

/-- Embedding of Server.Register from server.go lines 120-131.  newService
has already produced the Service descriptor.  The source executes
serviceMap.LoadOrStore(ser.name, s): on a duplicate name it fails with the
already-defined error, otherwise it stores the SERVER object s (not the
service object ser) under the service name. -/
def Server.Register (s : Server) (ser : Service) : GoResult Server :=
  if (s.serviceMap.lookup ser.name).isSome then
    GoResult.err ("rpc server: service already defined" ++ ser.name)
  else
    GoResult.ok { serviceMap := s.serviceMap ++ [(ser.name, MapVal.serverObj)] }

/-- Index of the last dot in a character list, as strings.LastIndex(s, ".")
computes it; none when absent. -/
def lastDotIdx (cs : List Char) : Option Nat :=
  (List.range cs.length).foldl
    (fun acc i => if cs.getD i ' ' = '.' then some i else acc) none

/-- Split a ServiceMethod string at its last dot into service name and
method name, from server.go findService lines 151-158. -/
def splitLastDot (s : String) : Option (String × String) :=
  match lastDotIdx s.toList with
  | none => none
  | some d => some (String.mk (s.toList.take d), String.mk (s.toList.drop (d + 1)))

/-- Embedding of Server.findService from server.go lines 147-175.  After the
dot split and map lookup, the source performs the type assertion
svci.(*service); when the stored value is the server object this assertion
fails at run time, which Go reports as a panic. -/
def Server.findService (s : Server) (serviceMethod : String) : GoResult (Service × MethodType) :=
  match splitLastDot serviceMethod with
  | none => GoResult.err ("rpc server:service/method request ill-formed: " ++ serviceMethod)
  | some (serviceName, methodName) =>
    match s.serviceMap.lookup serviceName with
    | none => GoResult.err ("rpc server:cannot find service " ++ serviceName)
    | some MapVal.serverObj =>
        GoResult.panicked "interface conversion: *LGRPC.Server is not *LGRPC.service"
    | some (MapVal.serviceObj svc) =>
      match svc.method.lookup methodName with
      | none => GoResult.err ("rpc server:cannot find method " ++ methodName)
      | some mtype => GoResult.ok (svc, mtype)

/-- A concrete service with one qualifying method, standing for a registered
receiver type Foo with method Bar. -/
def fooService : Service :=
  { name := "Foo",
    method := [("Bar", { argTypeName := "int", replyTypeName := "int", numCalls := 0 })] }

/- ===================== registry/registry.go ===================== -/

/-- Registry state, from registry/registry.go LGRegistry: a liveness
timeout and the address to last-heartbeat-time mapping (ServerItem.start).
Time is modelled as Nat. -/
structure LGRegistry where
  timeout : Nat
  servers : List (String × Nat)
deriving DecidableEq, Repr

/-- Liveness predicate from aliveServer line 79:
r.timeout == 0 or s.start.Add(r.timeout).After(now). -/
def serverAlive (timeout now start : Nat) : Bool :=
  timeout == 0 || decide (now < start + timeout)

/-- Lexicographic order on character lists by code point, the order Go
string comparison uses (byte-wise for ASCII). -/
def charListLe : List Char → List Char → Bool
  | [], _ => true
  | _ :: _, [] => false
  | a :: as, b :: bs =>
    if a.toNat < b.toNat then true
    else if b.toNat < a.toNat then false
    else charListLe as bs

/-- Lexicographic string comparison, the order of sort.Strings. -/
def strLe (a b : String) : Bool :=
  charListLe a.toList b.toList

/-- Insert a string into a list sorted by strLe. -/
def insertSorted (x : String) : List String → List String
  | [] => [x]
  | y :: ys => if strLe x y then x :: y :: ys else y :: insertSorted x ys

/-- Model of sort.Strings: insertion sort under strLe. -/
def sortStrings : List String → List String
  | [] => []
  | x :: xs => insertSorted x (sortStrings xs)

/-- Embedding of LGRegistry.putServer from registry.go lines 46-59: create
the entry with the current time if absent, otherwise refresh its start. -/
def LGRegistry.putServer (r : LGRegistry) (addr : String) (now : Nat) : LGRegistry :=
  if (r.servers.lookup addr).isSome then
    { r with servers := r.servers.map (fun p => if p.1 = addr then (addr, now) else p) }
  else
    { r with servers := r.servers ++ [(addr, now)] }

/-- Embedding of LGRegistry.aliveServer from registry.go lines 69-87: keep
the alive entries, delete the expired ones, and return the alive addresses
sorted with sort.Strings.  The source iterates the Go map in an unspecified
order and sorts at the end, so the sorted filter is its exact output. -/
def LGRegistry.aliveServer (r : LGRegistry) (now : Nat) : List String × LGRegistry :=
  let keep := r.servers.filter (fun p => serverAlive r.timeout now p.2)
  (sortStrings (keep.map Prod.fst), { r with servers := keep })

/-- strings.Join(xs, ",") from the GET branch of ServeHTTP. -/
def joinComma : List String → String
  | [] => ""
  | [x] => x
  | x :: y :: xs => x ++ "," ++ joinComma (y :: xs)

/-- http.Header.Get: the value stored under a header name, empty string
when the header is absent. -/
def headerGet (hs : List (String × String)) (k : String) : String :=
  (hs.lookup k).getD ""

/-- Embedding of the GET branch of LGRegistry.ServeHTTP, registry.go lines
93-113: set response header X-LGRPC-Servers to the comma-joined alive list
(with its lazy-expiry side effect on the registry). -/
def LGRegistry.serveGET (r : LGRegistry) (now : Nat) : List (String × String) × LGRegistry :=
  (([("X-LGRPC-Servers", joinComma (r.aliveServer now).1)]), (r.aliveServer now).2)

/- ===================== xclient/discovery.go ===================== -/

/-- Selection mode from discovery.go. -/
inductive SelectMode where
  | RandomSelect
  | RoundRobinSelect
deriving DecidableEq, Repr

/-- Static discovery state from discovery.go MultiServersDiscovery: the
address list and the rotating cursor. -/
structure MultiServersDiscovery where
  servers : List String
  index : Nat
deriving DecidableEq, Repr

/-- Embedding of MultiServersDiscovery.Update, discovery.go lines 80-85:
replace the server list; the cursor is left untouched. -/
def MultiServersDiscovery.Update (d : MultiServersDiscovery) (servers : List String) :
    MultiServersDiscovery :=
  { d with servers := servers }

/-- Embedding of MultiServersDiscovery.Get, discovery.go lines 94-116.
rnd stands for the value drawn by d.r.Intn(n) in the random branch, reduced
modulo n as Intn guarantees; the round-robin branch reads the element at
index % n and advances the cursor to (index + 1) % n. -/
def MultiServersDiscovery.Get (d : MultiServersDiscovery) (mode : SelectMode) (rnd : Nat) :
    Except String (String × MultiServersDiscovery) :=
  let n := d.servers.length
  if n = 0 then Except.error "rpc discovery: no server available"
  else
    match mode with
    | SelectMode.RandomSelect => Except.ok (d.servers.getD (rnd % n) "", d)
    | SelectMode.RoundRobinSelect =>
        Except.ok (d.servers.getD (d.index % n) "", { d with index := (d.index + 1) % n })

/-- Run k successive round-robin selections, collecting the chosen
addresses; selection stops early only if Get errors. -/
def rrRun : MultiServersDiscovery → Nat → List String × MultiServersDiscovery
  | d, 0 => ([], d)
  | d, Nat.succ k =>
    match d.Get SelectMode.RoundRobinSelect 0 with
    | Except.error _ => ([], d)
    | Except.ok (s, d2) =>
      let rest := rrRun d2 k
      (s :: rest.1, rest.2)

/- ===================== xclient/discover_lrpc.go ===================== -/

/-- Registry-backed discovery state from discover_lrpc.go
GRegistryDiscovery: the embedded static discovery plus registry address,
staleness window and last refresh time. -/
structure GRegistryDiscovery where
  servers : List String
  index : Nat
  registry : String
  timeout : Nat
  lastUpdate : Nat
deriving DecidableEq, Repr

/-- strings.Split(s, ",") on a character list. -/
def splitCommaAux (cur : List Char) (acc : List String) : List Char → List String
  | [] => acc ++ [String.mk cur.reverse]
  | c :: rest =>
    if c = ',' then splitCommaAux [] (acc ++ [String.mk cur.reverse]) rest
    else splitCommaAux (c :: cur) acc rest

/-- strings.Split(s, ","): splitting the empty string yields [""], exactly
as in Go. -/
def splitComma (s : String) : List String :=
  splitCommaAux [] [] s.toList

/-- An ASCII whitespace character, the cases of strings.TrimSpace relevant
to address lists. -/
def isSpaceChar (c : Char) : Bool :=
  c = ' ' || c = '\t' || c = '\n' || c = '\r'

/-- strings.TrimSpace: drop leading and trailing whitespace. -/
def trimSpace (s : String) : String :=
  String.mk (((s.toList.dropWhile isSpaceChar).reverse.dropWhile isSpaceChar).reverse)

/-- Embedding of GRegistryDiscovery.Refresh, discover_lrpc.go lines 41-81.
resp holds the response headers of the GET against d.registry.  When the
last refresh is within the staleness window nothing happens; otherwise the
source reads response header X-LRPC-Servers (note the name: the registry
sets X-LGRPC-Servers), splits on commas, discards tokens that are empty
after trimming, keeps the trimmed tokens, and replaces the address set. -/
def GRegistryDiscovery.Refresh (d : GRegistryDiscovery) (resp : List (String × String))
    (now : Nat) : GRegistryDiscovery :=
  if now < d.lastUpdate + d.timeout then d
  else
    let raw := splitComma (headerGet resp "X-LRPC-Servers")
    { d with
      servers := raw.filterMap (fun s => if trimSpace s ≠ "" then some (trimSpace s) else none),
      lastUpdate := now }

/- ===================== client.go ===================== -/

/-- A Call from client.go: sequence number, target method, argument,
pre-allocated reply container, error slot, and the completion signal.
doneCount counts how many times done() has fired on this call. -/
structure RCall where
  Seq : Nat
  ServiceMethod : String
  Args : GobVal
  Reply : Option GobVal
  Error : Option String
  doneCount : Nat
deriving DecidableEq, Repr

/-- Embedding of Call.done(): fire the completion signal once. -/
def RCall.done (c : RCall) : RCall :=
  { c with doneCount := c.doneCount + 1 }

/-- Client state from client.go: sequence counter, pending table, the
closing and shutdown flags, and a log of completed (done-signalled) calls
standing for the values delivered on the Done channels. -/
structure ClientState where
  seq : Nat
  pending : List (Nat × RCall)
  closing : Bool
  shutdown : Bool
  completed : List RCall
deriving DecidableEq, Repr

/-- The shutdown error, client.go line 147. -/
def ErrShutdown : String := "lgrpc: the connect is shut down"

/-- Embedding of newClientCodec, client.go lines 277-286: fresh state with
seq initialised to 1 and an empty pending table. -/
def newClientCodec : ClientState :=
  { seq := 1, pending := [], closing := false, shutdown := false, completed := [] }

/-- Embedding of Client.registerCall, client.go lines 180-195: fail with
ErrShutdown when closing or shut down, otherwise assign the current
sequence number, insert into pending, and increment the counter. -/
def ClientState.registerCall (st : ClientState) (call : RCall) :
    Except String Nat × ClientState :=
  if st.closing || st.shutdown then (Except.error ErrShutdown, st)
  else
    let call2 := { call with Seq := st.seq }
    (Except.ok call2.Seq,
      { st with pending := (call2.Seq, call2) :: st.pending, seq := st.seq + 1 })

/-- Embedding of Client.removeCall, client.go lines 202-209: look up and
delete the pending entry with the given sequence number. -/
def ClientState.removeCall (st : ClientState) (seq : Nat) : Option RCall × ClientState :=
  (st.pending.lookup seq, { st with pending := st.pending.filter (fun p => p.1 ≠ seq) })

/-- Embedding of Client.terminateCalls, client.go lines 215-229: mark the
client shut down and, for every pending call, set the error and fire its
completion signal.  The source mutates the calls in place; here the pending
table is rebuilt with the updated calls and each completed call is logged. -/
def ClientState.terminateCalls (st : ClientState) (err : String) : ClientState :=
  let failed := st.pending.map (fun p => (p.1, RCall.done { p.2 with Error := some err }))
  { st with
    shutdown := true,
    pending := failed,
    completed := st.completed ++ failed.map Prod.snd }

/-- Outcome of one ReadBody on the wire. -/
inductive BodyRead where
  | ok (b : GobVal)
  | fail (e : String)
deriving DecidableEq, Repr

/-- One step of the response stream as the receive loop observes it: either
a successfully decoded header followed by its body-read outcome, or a
header-read failure. -/
inductive WireItem where
  | resp (h : Header) (body : BodyRead)
  | hdrFail (e : String)
deriving DecidableEq, Repr

/-- The loop body of Client.receive, client.go lines 236-264, over a finite
response stream.  Reading past the end of the stream is a header-read
failure with EOF, as on a closed connection.  Returns the state at loop
exit together with the terminating error. -/
def receiveLoop (st : ClientState) : List WireItem → ClientState × String
  | [] => (st, "EOF")
  | WireItem.hdrFail e :: _ => (st, e)
  | WireItem.resp h body :: rest =>
    match st.removeCall h.Seq with
    | (none, st1) =>
      match body with
      | BodyRead.ok _ => receiveLoop st1 rest
      | BodyRead.fail e => (st1, e)
    | (some call, st1) =>
      if h.Error ≠ "" then
        let call2 := RCall.done { call with Error := some h.Error }
        let st2 := { st1 with completed := st1.completed ++ [call2] }
        match body with
        | BodyRead.ok _ => receiveLoop st2 rest
        | BodyRead.fail e => (st2, e)
      else
        match body with
        | BodyRead.ok b =>
          let call2 := RCall.done { call with Reply := some b }
          receiveLoop { st1 with completed := st1.completed ++ [call2] } rest
        | BodyRead.fail e =>
          let call2 := RCall.done { call with Error := some ("reading body" ++ e) }
          ({ st1 with completed := st1.completed ++ [call2] }, e)

/-- Embedding of Client.receive, client.go lines 236-267: run the loop and,
on its terminating error, terminate every remaining pending call. -/
def ClientState.receive (st : ClientState) (stream : List WireItem) : ClientState × String :=
  ((receiveLoop st stream).1.terminateCalls (receiveLoop st stream).2,
   (receiveLoop st stream).2)

/-- Embedding of Client.send, client.go lines 352-381: register the call
(on failure set the error and signal completion); then write header and
body with the codec.  GobCodec.Write always returns nil, so the write-error
branch is never taken and the call stays pending. -/
def ClientState.send (st : ClientState) (call : RCall) : ClientState :=
  match st.registerCall call with
  | (Except.error e, st1) =>
    { st1 with completed := st1.completed ++ [RCall.done { call with Error := some e }] }
  | (Except.ok _, st1) => st1

/-- The done channel argument of Client.Go: nil, or a channel with the
given buffer capacity. -/
inductive DoneChan where
  | nilChan
  | buffered (capacity : Nat)
deriving DecidableEq, Repr

/-- The fresh Call that Client.Go builds before sending. -/
def mkCall (serviceMethod : String) (args : GobVal) : RCall :=
  { Seq := 0, ServiceMethod := serviceMethod, Args := args,
    Reply := none, Error := none, doneCount := 0 }

/-- Embedding of Client.Go, client.go lines 395-413: a nil done channel is
replaced by a fresh buffered channel of capacity 10; a non-nil unbuffered
channel triggers log.Panic (modelled as the error result, the call never
being issued); otherwise the call is built and sent.  The result carries
the state after send and the capacity of the done channel attached to the
call. -/
def ClientState.Go (st : ClientState) (serviceMethod : String) (args : GobVal)
    (done : DoneChan) : Except String (ClientState × Nat) :=
  match done with
  | DoneChan.nilChan => Except.ok (st.send (mkCall serviceMethod args), 10)
  | DoneChan.buffered c =>
    if c = 0 then Except.error "rpc: done channel is unbuffered"
    else Except.ok (st.send (mkCall serviceMethod args), c)

/- ===================== parseOptins / Option ===================== -/

/-- The protocol tag, server.go line 20. -/
def MagicNumber : Nat := 0x3bef5c

/-- The gob codec kind, codec/codec.go line 58. -/
def GOBType : String := "application/gob"

/-- The Option record from server.go lines 82-87 (timeouts in seconds). -/
structure RpcOption where
  MagicNumber : Nat
  CodecType : String
  ConnectTimeout : Nat
  HandleTimeout : Nat
deriving DecidableEq, Repr

/-- DefaultOption from server.go lines 92-97. -/
def DefaultOption : RpcOption :=
  { MagicNumber := MagicNumber, CodecType := GOBType,
    ConnectTimeout := 10, HandleTimeout := 0 }

/-- Embedding of parseOptins, client.go lines 327-346.  A Go nil pointer in
the variadic list is none.  Zero options or a nil first option yield the
default; then more than one option is an error; the single remaining option
gets its MagicNumber overwritten with the default and an empty CodecType
filled in. -/
def parseOptins (opts : List (Option RpcOption)) : Except String RpcOption :=
  if opts.length = 0 ∨ opts.headD none = none then Except.ok DefaultOption
  else if opts.length ≠ 1 then Except.error "only one option is allowed"
  else
    match opts.headD none with
    | none => Except.ok DefaultOption
    | some o =>
      Except.ok { o with
        MagicNumber := MagicNumber,
        CodecType := if o.CodecType = "" then DefaultOption.CodecType else o.CodecType }

/-- The codec kinds registered in codec.NewCodeFuncMap (init registers only
the gob codec). -/
def codecRegistered (t : String) : Bool := t == GOBType

/-- The protocol-tag check of Server.ServeConn, server.go line 219. -/
def serveConnMagicOK (o : RpcOption) : Bool := o.MagicNumber == MagicNumber

/- ===================== xclient Broadcast (unnamed part_002) ============ -/

/-- The shared state of one Broadcast: the first error observed, the
replyDone flag, and the reply container (none while unwritten). -/
structure BroadcastState where
  e : Option String
  replyDone : Bool
  reply : Option GobVal
deriving DecidableEq, Repr

/-- One completed per-address call inside XClient.Broadcast, lines 146-176
of the xclient source: under the mutex, a first error is recorded (and
cancels the shared context), and a success is copied into the reply
container only while replyDone is still false. -/
def broadcastStep (st : BroadcastState) (res : Except String GobVal) : BroadcastState :=
  match res with
  | Except.error err => if st.e = none then { st with e := some err } else st
  | Except.ok v => if st.replyDone then st else { st with reply := some v, replyDone := true }

/-- Embedding of XClient.Broadcast over the per-address call outcomes in
their completion order.  hasReply is whether the caller passed a non-nil
reply container; replyDone starts at (reply == nil).  Returns the error
result and the final contents of the reply container. -/
def Broadcast (hasReply : Bool) (outcomes : List (Except String GobVal)) :
    Option String × Option GobVal :=
  let final := outcomes.foldl broadcastStep { e := none, replyDone := !hasReply, reply := none }
  (final.e, final.reply)

/-- The first error in completion order. -/
def firstError : List (Except String GobVal) → Option String
  | [] => none
  | Except.error e :: _ => some e
  | Except.ok _ :: rest => firstError rest

/-- The first success in completion order. -/
def firstOk : List (Except String GobVal) → Option GobVal
  | [] => none
  | Except.ok v :: _ => some v
  | Except.error _ :: rest => firstOk rest

/-- A sample registry with two alive addresses. -/
def regSample : LGRegistry :=
  { timeout := 300, servers := [("tcp@a:1", 100), ("tcp@b:2", 100)] }

/-- A sample stale registry-backed discovery (last refresh far older than
the staleness window). -/
def discSample : GRegistryDiscovery :=
  { servers := ["old"], index := 0, registry := "reg", timeout := 10, lastUpdate := 0 }

/-- Sortedness relation used to state the lexicographic order of the alive
list. -/
def StrLeProp (a b : String) : Prop := strLe a b = true

/-- A sample in-flight call with sequence number 5. -/
def sampleCall : RCall :=
  { Seq := 5, ServiceMethod := "Foo.Sum", Args := GobVal.vint 1,
    Reply := none, Error := none, doneCount := 0 }

/-- A sample open client with one pending call. -/
def sampleClient : ClientState :=
  { seq := 6, pending := [(5, sampleCall)], closing := false, shutdown := false,
    completed := [] }

/-- A discovery with three addresses and cursor 7. -/
def discSeven : MultiServersDiscovery :=
  { servers := ["A", "B", "C"], index := 7 }

/-- A caller-supplied option with a wrong tag and empty codec kind. -/
def optSample : RpcOption :=
  { MagicNumber := 0, CodecType := "", ConnectTimeout := 0, HandleTimeout := 0 }

/- ===================== theorems ===================== -/

/-- C1: the claim states that writing a header and body with the gob codec
and reading the stream back with ReadHeader and ReadBody yields the pair
unchanged.  The source GobCodec.Write is `return nil`: it encodes nothing,
for every input.  Hence after writing a concrete header with an empty-map
body, the stream the peer decodes is empty and ReadHeader fails with EOF:
no Header and body round-trips at all. -/
theorem C1_gob_write_encodes_nothing_roundtrip_fails :
    (∀ (c : GobCodec) (h : Header) (b : GobVal), GobCodec.Write c h b = Except.ok c) ∧
    (GobCodec.Write { written := [] }
        { ServiceMethod := "Foo.Sum", Seq := 1, Error := "" } (GobVal.vmap []) =
      Except.ok { written := [] } ∧
    GobCodec.ReadHeader (GobCodec.written { written := [] }) = Except.error "EOF") :=
  ⟨fun _ _ _ => rfl, rfl, rfl⟩

/-- C2: the claim states that after a first Register succeeds a duplicate
Register fails with the already-defined error, and that the first service
stays resolvable through findService.  On the source, the duplicate is
indeed rejected, but Register stored the server object (LoadOrStore(name, s))
where findService asserts a service object, so resolving Foo.Bar on the
registered server panics on the type assertion instead of returning the
service and method descriptor. -/
theorem C2_duplicate_rejected_but_findService_panics :
    Server.Register { serviceMap := [] } fooService =
      GoResult.ok { serviceMap := [("Foo", MapVal.serverObj)] } ∧
    Server.Register { serviceMap := [("Foo", MapVal.serverObj)] } fooService =
      GoResult.err "rpc server: service already definedFoo" ∧
    Server.findService { serviceMap := [("Foo", MapVal.serverObj)] } "Foo.Bar" =
      GoResult.panicked "interface conversion: *LGRPC.Server is not *LGRPC.service" := by
  refine ⟨?_, ?_, ?_⟩ <;> decide

/-- C3: the claim states that a stale Refresh replaces the discovery
address set with exactly the alive list the registry publishes in its
response header.  The registry publishes the comma-joined alive list under
X-LGRPC-Servers, but Refresh parses header X-LRPC-Servers, which is never
set: on a registry with two alive addresses, the GET response carries
them, yet the stale discovery ends up with the empty address set. -/
theorem C3_refresh_parses_wrong_header_name :
    (regSample.aliveServer 200).1 = ["tcp@a:1", "tcp@b:2"] ∧
    headerGet (regSample.serveGET 200).1 "X-LGRPC-Servers" = "tcp@a:1,tcp@b:2" ∧
    (discSample.Refresh (regSample.serveGET 200).1 200).servers = [] := by
  refine ⟨?_, ?_, ?_⟩ <;> decide

/-- terminateCalls marks the client shut down; every call left in the
pending table carries the given error, has fired its completion signal,
and appears in the completion log. -/
theorem terminateCalls_spec (st : ClientState) (err : String) :
    (st.terminateCalls err).shutdown = true ∧
    ∀ k c, (k, c) ∈ (st.terminateCalls err).pending →
      c.Error = some err ∧ c ∈ (st.terminateCalls err).completed ∧ 1 ≤ c.doneCount := by
  refine ⟨rfl, ?_⟩
  intro k c hmem
  have hmem2 : (k, c) ∈
      st.pending.map (fun p => (p.1, RCall.done { p.2 with Error := some err })) := hmem
  obtain ⟨p, hp, heq⟩ := List.mem_map.mp hmem2
  injection heq with h1 h2
  subst h2
  refine ⟨rfl, ?_, by simp [RCall.done]⟩
  show RCall.done { p.2 with Error := some err } ∈ st.completed ++
    (st.pending.map (fun p => (p.1, RCall.done { p.2 with Error := some err }))).map Prod.snd
  exact List.mem_append_right _ (List.mem_map.mpr ⟨_, List.mem_map.mpr ⟨p, hp, rfl⟩, rfl⟩)

/-- C4: when the response-reading loop stops (in particular on a
header-read failure, which is the only way it stops), the status becomes
shut down and every call still pending is completed with the terminating
error: its error slot holds that error, its completion signal has fired,
and it appears in the completion log, so no registered call is left
unresolved. -/
theorem C4_receive_failure_fails_all_pending (st : ClientState) (stream : List WireItem) :
    (st.receive stream).1.shutdown = true ∧
    ∀ k c, (k, c) ∈ (st.receive stream).1.pending →
      c.Error = some (st.receive stream).2 ∧
      c ∈ (st.receive stream).1.completed ∧ 1 ≤ c.doneCount :=
  terminateCalls_spec (receiveLoop st stream).1 (receiveLoop st stream).2

/-- Witness for C4: a client with one pending call whose stream starts
with a header-read failure. -/
theorem C4_receive_failure_fails_all_pending_witness :
    (sampleClient.receive [WireItem.hdrFail "boom"]).1.shutdown = true ∧
    ({ sampleCall with Error := some "boom", doneCount := 1 } : RCall).Error =
      some (sampleClient.receive [WireItem.hdrFail "boom"]).2 ∧
    ({ sampleCall with Error := some "boom", doneCount := 1 } : RCall) ∈
      (sampleClient.receive [WireItem.hdrFail "boom"]).1.completed ∧
    1 ≤ ({ sampleCall with Error := some "boom", doneCount := 1 } : RCall).doneCount := by
  have h := C4_receive_failure_fails_all_pending sampleClient [WireItem.hdrFail "boom"]
  exact ⟨h.1, h.2 5 { sampleCall with Error := some "boom", doneCount := 1 } (by decide)⟩

/-- In a pending table whose keys are all below n, no entry has key n. -/
theorem lookup_none_of_keys_lt (l : List (Nat × RCall)) (n : Nat)
    (h : ∀ k ∈ l.map Prod.fst, k < n) : l.lookup n = none := by
  induction l with
  | nil => rfl
  | cons hd tl ih =>
    obtain ⟨k0, v0⟩ := hd
    have h1 : k0 < n := h k0 (by simp)
    have hne : (n == k0) = false := by
      simp only [beq_eq_false_iff_ne, ne_eq]
      omega
    simp only [List.lookup, hne]
    exact ih (fun k hk => h k (by simp [hk]))

/-- C5: the sequence counter starts at 1; while the status is open,
registerCall assigns the current counter to the call, inserts it into the
pending table and increments the counter, so under the invariant that all
pending keys are below the counter the assigned number collides with no
pending call and the invariant is preserved (hence assigned numbers are
strictly increasing); when the status is not open, registerCall fails with
ErrShutdown and the state, in particular the pending table, is unchanged. -/
theorem C5_register_call_spec (st : ClientState) (call : RCall) :
    (newClientCodec.seq = 1 ∧ newClientCodec.pending = []) ∧
    (st.closing = false → st.shutdown = false →
      st.registerCall call =
        (Except.ok st.seq,
          { st with pending := (st.seq, { call with Seq := st.seq }) :: st.pending,
                    seq := st.seq + 1 }) ∧
      ((∀ k ∈ st.pending.map Prod.fst, k < st.seq) →
        st.pending.lookup st.seq = none ∧
        ∀ k ∈ (st.registerCall call).2.pending.map Prod.fst,
          k < (st.registerCall call).2.seq)) ∧
    ((st.closing = true ∨ st.shutdown = true) →
      (st.registerCall call).1 = Except.error ErrShutdown ∧
      (st.registerCall call).2 = st) := by
  refine ⟨⟨rfl, rfl⟩, ?_, ?_⟩
  · intro hc hs
    have hreg : st.registerCall call =
        (Except.ok st.seq,
          { st with pending := (st.seq, { call with Seq := st.seq }) :: st.pending,
                    seq := st.seq + 1 }) := by
      simp [ClientState.registerCall, hc, hs]
    refine ⟨hreg, ?_⟩
    intro hinv
    refine ⟨lookup_none_of_keys_lt st.pending st.seq hinv, ?_⟩
    intro k hk
    rw [hreg] at hk ⊢
    dsimp only at hk ⊢
    simp only [List.map_cons, List.mem_cons] at hk
    rcases hk with rfl | hk2
    · omega
    · have := hinv k hk2
      omega
  · intro hcs
    rcases hcs with hc | hs
    · constructor <;> simp [ClientState.registerCall, hc]
    · constructor <;> simp [ClientState.registerCall, hs]

/-- Witness for C5: a fresh client and an open client with one pending
call below the counter. -/
theorem C5_register_call_spec_witness :
    newClientCodec.seq = 1 ∧
    sampleClient.registerCall sampleCall =
      (Except.ok sampleClient.seq,
        { sampleClient with
            pending := (sampleClient.seq, { sampleCall with Seq := sampleClient.seq })
              :: sampleClient.pending,
            seq := sampleClient.seq + 1 }) ∧
    sampleClient.pending.lookup sampleClient.seq = none := by
  have h := C5_register_call_spec sampleClient sampleCall
  exact ⟨h.1.1, (h.2.1 rfl rfl).1, ((h.2.1 rfl rfl).2 (by decide)).1⟩

/-- charListLe is total. -/
theorem charListLe_total (as : List Char) : ∀ bs, charListLe as bs = true ∨ charListLe bs as = true := by
  induction as with
  | nil => intro bs; left; rfl
  | cons a as ih =>
    intro bs
    cases bs with
    | nil => right; rfl
    | cons b bs =>
      by_cases h1 : a.toNat < b.toNat
      · left; simp [charListLe, h1]
      · by_cases h2 : b.toNat < a.toNat
        · right; simp [charListLe, h2]
        · rcases ih bs with h | h
          · left; simp [charListLe, h1, h2, h]
          · right; simp [charListLe, h1, h2, h]

/-- charListLe is transitive. -/
theorem charListLe_trans (as : List Char) : ∀ bs cs, charListLe as bs = true →
    charListLe bs cs = true → charListLe as cs = true := by
  induction as with
  | nil => intro bs cs _ _; rfl
  | cons a as ih =>
    intro bs cs h1 h2
    cases bs with
    | nil => simp [charListLe] at h1
    | cons b bs =>
      cases cs with
      | nil => simp [charListLe] at h2
      | cons c cs =>
        by_cases hab : a.toNat < b.toNat
        · by_cases hbc : b.toNat < c.toNat
          · simp [charListLe, show a.toNat < c.toNat by omega]
          · by_cases hcb : c.toNat < b.toNat
            · simp [charListLe, hbc, hcb] at h2
            · simp [charListLe, show a.toNat < c.toNat by omega]
        · by_cases hba : b.toNat < a.toNat
          · simp [charListLe, hab, hba] at h1
          · by_cases hbc : b.toNat < c.toNat
            · simp [charListLe, show a.toNat < c.toNat by omega]
            · by_cases hcb : c.toNat < b.toNat
              · simp [charListLe, hbc, hcb] at h2
              · simp only [charListLe, hab, hba, if_false, if_neg hab, if_neg hba] at h1
                simp only [charListLe, if_neg hbc, if_neg hcb] at h2
                have hac : ¬ a.toNat < c.toNat := by omega
                have hca : ¬ c.toNat < a.toNat := by omega
                simp only [charListLe, if_neg hac, if_neg hca]
                exact ih bs cs h1 h2

/-- strLe is transitive. -/
theorem strLe_trans {a b c : String} (h1 : strLe a b = true) (h2 : strLe b c = true) :
    strLe a c = true :=
  charListLe_trans a.toList b.toList c.toList h1 h2

/-- strLe is total. -/
theorem strLe_total (a b : String) : strLe a b = true ∨ strLe b a = true :=
  charListLe_total a.toList b.toList

/-- Membership in insertSorted. -/
theorem mem_insertSorted (x a : String) (l : List String) :
    a ∈ insertSorted x l ↔ a = x ∨ a ∈ l := by
  induction l with
  | nil => simp [insertSorted]
  | cons y ys ih =>
    by_cases h : strLe x y = true
    · simp [insertSorted, h]
    · show a ∈ (if strLe x y then x :: y :: ys else y :: insertSorted x ys) ↔ _
      rw [if_neg h]
      simp only [List.mem_cons, ih]
      tauto

/-- Membership in sortStrings. -/
theorem mem_sortStrings (a : String) (l : List String) :
    a ∈ sortStrings l ↔ a ∈ l := by
  induction l with
  | nil => simp [sortStrings]
  | cons x xs ih => simp [sortStrings, mem_insertSorted, ih]

/-- insertSorted preserves sortedness. -/
theorem pairwise_insertSorted (x : String) (l : List String)
    (h : l.Pairwise StrLeProp) : (insertSorted x l).Pairwise StrLeProp := by
  induction l with
  | nil => simp [insertSorted, List.pairwise_cons]
  | cons y ys ih =>
    rcases List.pairwise_cons.mp h with ⟨hy, hys⟩
    by_cases hxy : strLe x y = true
    · simp only [insertSorted, hxy, if_true]
      refine List.pairwise_cons.mpr ⟨?_, h⟩
      intro b hb
      rcases List.mem_cons.mp hb with rfl | hb2
      · exact hxy
      · exact strLe_trans hxy (hy b hb2)
    · simp only [insertSorted, hxy, if_false, if_neg hxy]
      refine List.pairwise_cons.mpr ⟨?_, ih hys⟩
      intro b hb
      rcases (mem_insertSorted x b ys).mp hb with rfl | hb2
      · rcases strLe_total b y with h2 | h2
        · exact absurd h2 hxy
        · exact h2
      · exact hy b hb2

/-- sortStrings sorts. -/
theorem pairwise_sortStrings (l : List String) : (sortStrings l).Pairwise StrLeProp := by
  induction l with
  | nil => simp [sortStrings]
  | cons x xs ih => exact pairwise_insertSorted x _ ih

/-- The Bool liveness test agrees with its propositional reading. -/
theorem serverAlive_iff (timeout now start : Nat) :
    serverAlive timeout now start = true ↔ (timeout = 0 ∨ now < start + timeout) := by
  simp [serverAlive]

/-- Membership in the alive list returned by aliveServer. -/
theorem mem_aliveServer (r : LGRegistry) (now : Nat) (addr : String) :
    addr ∈ (r.aliveServer now).1 ↔
      ∃ start, (addr, start) ∈ r.servers ∧ (r.timeout = 0 ∨ now < start + r.timeout) := by
  show addr ∈ sortStrings ((r.servers.filter
      (fun p => serverAlive r.timeout now p.2)).map Prod.fst) ↔ _
  rw [mem_sortStrings]
  constructor
  · intro h
    obtain ⟨⟨a, start⟩, hp, hf⟩ := List.mem_map.mp h
    obtain ⟨hmem, hal⟩ := List.mem_filter.mp hp
    subst hf
    exact ⟨start, hmem, (serverAlive_iff r.timeout now start).mp hal⟩
  · rintro ⟨start, hmem, hcond⟩
    exact List.mem_map.mpr ⟨(addr, start),
      List.mem_filter.mpr ⟨hmem, (serverAlive_iff r.timeout now start).mpr hcond⟩, rfl⟩

/-- Upserting an address present in the mapping leaves its fresh entry in
the map image. -/
theorem mem_update_of_lookup (l : List (String × Nat)) (addr : String) (t : Nat)
    (h : (l.lookup addr).isSome) :
    (addr, t) ∈ l.map (fun p => if p.1 = addr then (addr, t) else p) := by
  induction l with
  | nil => simp [List.lookup] at h
  | cons hd tl ih =>
    obtain ⟨k, v⟩ := hd
    by_cases hk : k = addr
    · subst hk
      simp
    · have hbeq : (addr == k) = false := by
        simp only [beq_eq_false_iff_ne, ne_eq]
        exact fun he => hk he.symm
      have h2 : (tl.lookup addr).isSome := by
        simpa [List.lookup, hbeq] using h
      simpa [hk] using List.mem_cons_of_mem (k, v) (ih h2)

/-- A heartbeat upsert leaves the fresh entry in the mapping. -/
theorem putServer_mem (r : LGRegistry) (addr : String) (t : Nat) :
    (addr, t) ∈ (r.putServer addr t).servers := by
  by_cases h : (r.servers.lookup addr).isSome
  · show (addr, t) ∈ (if (r.servers.lookup addr).isSome then _ else _ : LGRegistry).servers
    rw [if_pos h]
    exact mem_update_of_lookup r.servers addr t h
  · show (addr, t) ∈ (if (r.servers.lookup addr).isSome then _ else _ : LGRegistry).servers
    rw [if_neg h]
    simp

/-- putServer does not change the liveness timeout. -/
theorem putServer_timeout (r : LGRegistry) (addr : String) (t : Nat) :
    (r.putServer addr t).timeout = r.timeout := by
  unfold LGRegistry.putServer
  split <;> rfl

/-- C6: the liveness query returns exactly the addresses whose last
heartbeat plus the timeout is still in the future, lexicographically
sorted; the mapping afterwards keeps exactly the alive entries (expired
ones are removed); an address freshly upserted by a heartbeat is included
at any later query inside the window; and with timeout 0 every registered
address is always included. -/
theorem C6_alive_query_spec (r : LGRegistry) (now : Nat) :
    (∀ addr, addr ∈ (r.aliveServer now).1 ↔
      ∃ start, (addr, start) ∈ r.servers ∧ (r.timeout = 0 ∨ now < start + r.timeout)) ∧
    ((r.aliveServer now).1.Pairwise StrLeProp) ∧
    ((r.aliveServer now).2.servers =
      r.servers.filter (fun p => serverAlive r.timeout now p.2)) ∧
    (∀ addr t t2, (r.timeout = 0 ∨ t2 < t + r.timeout) →
      addr ∈ ((r.putServer addr t).aliveServer t2).1) ∧
    (r.timeout = 0 → ∀ addr start, (addr, start) ∈ r.servers →
      addr ∈ (r.aliveServer now).1) := by
  refine ⟨fun addr => mem_aliveServer r now addr, pairwise_sortStrings _, rfl, ?_, ?_⟩
  · intro addr t t2 hcond
    apply (mem_aliveServer (r.putServer addr t) t2 addr).mpr
    refine ⟨t, putServer_mem r addr t, ?_⟩
    rw [putServer_timeout]
    exact hcond
  · intro h0 addr start hmem
    exact (mem_aliveServer r now addr).mpr ⟨start, hmem, Or.inl h0⟩

/-- Witness for C6: on the sample registry, a re-heartbeated address is
alive again at a later query, and an address with a recent heartbeat is in
the query output. -/
theorem C6_alive_query_spec_witness :
    "tcp@c:3" ∈ ((regSample.putServer "tcp@c:3" 400).aliveServer 500).1 ∧
    "tcp@a:1" ∈ (regSample.aliveServer 200).1 := by
  have h := C6_alive_query_spec regSample 200
  exact ⟨h.2.2.2.1 "tcp@c:3" 400 500 (Or.inr (by decide)),
    (h.1 "tcp@a:1").mpr ⟨100, by decide, Or.inr (by decide)⟩⟩

/-- C7: starting from address list [A, B, C] and cursor 0, five successive
round-robin selections yield A, B, C, A, B; Update replaces the address
list without resetting the cursor, and the next round-robin selection
after an Update reads the element at the old cursor value modulo the new
list length. -/
theorem C7_round_robin_spec (d : MultiServersDiscovery) (ns : List String) :
    (rrRun { servers := ["A", "B", "C"], index := 0 } 5).1 = ["A", "B", "C", "A", "B"] ∧
    ((d.Update ns).index = d.index ∧ (d.Update ns).servers = ns) ∧
    (ns ≠ [] →
      (d.Update ns).Get SelectMode.RoundRobinSelect 0 =
        Except.ok (ns.getD (d.index % ns.length) "",
          { servers := ns, index := (d.index + 1) % ns.length })) := by
  refine ⟨by decide, ⟨rfl, rfl⟩, ?_⟩
  intro hne
  have hlen : ¬ ns.length = 0 := by simpa [List.length_eq_zero] using hne
  simp [MultiServersDiscovery.Get, MultiServersDiscovery.Update, hlen]

/-- Witness for C7: cursor 7 over three addresses, updated to two
addresses; the next selection reads index 7 mod 2 = 1, the address Y. -/
theorem C7_round_robin_spec_witness :
    (discSeven.Update ["X", "Y"]).Get SelectMode.RoundRobinSelect 0 =
      Except.ok ("Y", { servers := ["X", "Y"], index := 0 }) := by
  have h := (C7_round_robin_spec discSeven ["X", "Y"]).2.2 (by decide)
  exact h

/-- A step on an ok outcome never changes the error slot. -/
theorem broadcastStep_e_ok (st : BroadcastState) (v : GobVal) :
    (broadcastStep st (Except.ok v)).e = st.e := by
  simp only [broadcastStep]
  split <;> rfl

/-- A step on an error outcome never changes the reply slot or the
replyDone flag. -/
theorem broadcastStep_reply_error (st : BroadcastState) (e : String) :
    (broadcastStep st (Except.error e)).reply = st.reply ∧
    (broadcastStep st (Except.error e)).replyDone = st.replyDone := by
  simp only [broadcastStep]
  split <;> exact ⟨rfl, rfl⟩

/-- Once an error is recorded it is never overwritten. -/
theorem foldl_broadcast_e_some (outcomes : List (Except String GobVal)) :
    ∀ (st : BroadcastState) (x : String), st.e = some x →
    (outcomes.foldl broadcastStep st).e = some x := by
  induction outcomes with
  | nil => intro st x h; simpa using h
  | cons r rest ih =>
    intro st x h
    simp only [List.foldl_cons]
    apply ih
    cases r with
    | ok v => rw [broadcastStep_e_ok]; exact h
    | error e => simp [broadcastStep, h]

/-- Starting with no recorded error, the fold records the first error in
completion order. -/
theorem foldl_broadcast_e_none (outcomes : List (Except String GobVal)) :
    ∀ st : BroadcastState, st.e = none →
    (outcomes.foldl broadcastStep st).e = firstError outcomes := by
  induction outcomes with
  | nil => intro st h; simpa [firstError] using h
  | cons r rest ih =>
    intro st h
    cases r with
    | error e =>
      simp only [List.foldl_cons, firstError]
      exact foldl_broadcast_e_some rest _ e (by simp [broadcastStep, h])
    | ok v =>
      simp only [List.foldl_cons, firstError]
      exact ih _ (by rw [broadcastStep_e_ok]; exact h)

/-- Once replyDone is set, the reply slot is frozen. -/
theorem foldl_broadcast_reply_done (outcomes : List (Except String GobVal)) :
    ∀ st : BroadcastState, st.replyDone = true →
    (outcomes.foldl broadcastStep st).reply = st.reply ∧
    (outcomes.foldl broadcastStep st).replyDone = true := by
  induction outcomes with
  | nil => intro st h; exact ⟨rfl, h⟩
  | cons r rest ih =>
    intro st h
    cases r with
    | error e =>
      have h2 := broadcastStep_reply_error st e
      simp only [List.foldl_cons]
      obtain ⟨ha, hb⟩ := ih (broadcastStep st (Except.error e)) (by rw [h2.2]; exact h)
      exact ⟨by rw [ha, h2.1], hb⟩
    | ok v =>
      simp only [List.foldl_cons]
      have hstep : broadcastStep st (Except.ok v) = st := by simp [broadcastStep, h]
      rw [hstep]
      exact ih st h

/-- Starting with replyDone unset, the fold stores the first success in
completion order (and leaves the container alone when there is none). -/
theorem foldl_broadcast_reply_not_done (outcomes : List (Except String GobVal)) :
    ∀ st : BroadcastState, st.replyDone = false →
    (outcomes.foldl broadcastStep st).reply =
      (match firstOk outcomes with
       | some v => some v
       | none => st.reply) := by
  induction outcomes with
  | nil => intro st _; simp [firstOk]
  | cons r rest ih =>
    intro st h
    cases r with
    | error e =>
      simp only [List.foldl_cons, firstOk]
      have h2 := broadcastStep_reply_error st e
      rw [ih _ (by rw [h2.2]; exact h)]
      cases firstOk rest <;> simp [h2.1]
    | ok v =>
      simp only [List.foldl_cons, firstOk]
      have hstep : broadcastStep st (Except.ok v) =
          { st with reply := some v, replyDone := true } := by simp [broadcastStep, h]
      rw [hstep]
      exact (foldl_broadcast_reply_done rest _ rfl).1

/-- When a list holds the error e0 and holds no other error value,
firstError finds e0. -/
theorem firstError_of_unique (l : List (Except String GobVal)) (e0 : String) :
    Except.error e0 ∈ l → (∀ e, Except.error e ∈ l → e = e0) →
    firstError l = some e0 := by
  induction l with
  | nil => intro h _; simp at h
  | cons r rest ih =>
    intro hmem huniq
    cases r with
    | error e =>
      have he : e = e0 := huniq e (by simp)
      simp [firstError, he]
    | ok v =>
      have hmem2 : Except.error e0 ∈ rest := by
        rcases List.mem_cons.mp hmem with h | h
        · exact absurd h (by simp)
        · exact h
      exact ih hmem2 (fun e he => huniq e (List.mem_cons_of_mem _ he))

/-- When a list holds a success, firstOk finds a success from the list. -/
theorem firstOk_some_of_mem (l : List (Except String GobVal)) (v : GobVal)
    (h : Except.ok v ∈ l) : ∃ w, firstOk l = some w ∧ Except.ok w ∈ l := by
  induction l with
  | nil => simp at h
  | cons r rest ih =>
    cases r with
    | ok w => exact ⟨w, rfl, by simp⟩
    | error e =>
      have h2 : Except.ok v ∈ rest := by
        rcases List.mem_cons.mp h with h | h
        · exact absurd h (by simp)
        · exact h
      obtain ⟨w, hw, hwmem⟩ := ih h2
      exact ⟨w, by simp [firstOk, hw], List.mem_cons_of_mem _ hwmem⟩

/-- C8: over three per-address outcomes, exactly one of which is an error,
in any completion order, Broadcast returns that error; with a non-nil
reply container the container ends holding the first success observed,
which is one of the two successful results; with a nil container nothing
is copied and only the error signal is produced. -/
theorem C8_broadcast_spec (order : List (Except String GobVal)) (e0 : String)
    (v1 v2 : GobVal)
    (hperm : order.Perm [Except.error e0, Except.ok v1, Except.ok v2]) :
    (Broadcast true order).1 = some e0 ∧
    (Broadcast true order).2 = firstOk order ∧
    ((Broadcast true order).2 = some v1 ∨ (Broadcast true order).2 = some v2) ∧
    (Broadcast false order).1 = some e0 ∧
    (Broadcast false order).2 = none := by
  have hmem_err : Except.error e0 ∈ order := hperm.mem_iff.mpr (by simp)
  have huniq : ∀ e, Except.error e ∈ order → e = e0 := by
    intro e he
    have h2 := hperm.mem_iff.mp he
    simpa using h2
  have hfe : firstError order = some e0 := firstError_of_unique order e0 hmem_err huniq
  have hmem_ok : Except.ok v1 ∈ order := hperm.mem_iff.mpr (by simp)
  obtain ⟨w, hw, hwmem⟩ := firstOk_some_of_mem order v1 hmem_ok
  have hw12 : w = v1 ∨ w = v2 := by
    have h2 := hperm.mem_iff.mp hwmem
    simpa using h2
  have he_true : (Broadcast true order).1 = some e0 := by
    show (order.foldl broadcastStep
      { e := none, replyDone := !true, reply := none }).e = some e0
    rw [foldl_broadcast_e_none order _ rfl, hfe]
  have hr_true : (Broadcast true order).2 = firstOk order := by
    show (order.foldl broadcastStep
      { e := none, replyDone := !true, reply := none }).reply = firstOk order
    rw [foldl_broadcast_reply_not_done order _ rfl, hw]
  refine ⟨he_true, hr_true, ?_, ?_, ?_⟩
  · rw [hr_true, hw]
    rcases hw12 with rfl | rfl
    · exact Or.inl rfl
    · exact Or.inr rfl
  · show (order.foldl broadcastStep
      { e := none, replyDone := !false, reply := none }).e = some e0
    rw [foldl_broadcast_e_none order _ rfl, hfe]
  · show (order.foldl broadcastStep
      { e := none, replyDone := !false, reply := none }).reply = none
    exact (foldl_broadcast_reply_done order _ rfl).1

/-- Witness for C8: a concrete completion order with one error and two
successes. -/
theorem C8_broadcast_spec_witness :
    (Broadcast true
      [Except.error "E", Except.ok (GobVal.vint 1), Except.ok (GobVal.vint 2)]).1 =
        some "E" ∧
    (Broadcast true
      [Except.error "E", Except.ok (GobVal.vint 1), Except.ok (GobVal.vint 2)]).2 =
        firstOk [Except.error "E", Except.ok (GobVal.vint 1), Except.ok (GobVal.vint 2)] ∧
    ((Broadcast true
      [Except.error "E", Except.ok (GobVal.vint 1), Except.ok (GobVal.vint 2)]).2 =
        some (GobVal.vint 1) ∨
     (Broadcast true
      [Except.error "E", Except.ok (GobVal.vint 1), Except.ok (GobVal.vint 2)]).2 =
        some (GobVal.vint 2)) ∧
    (Broadcast false
      [Except.error "E", Except.ok (GobVal.vint 1), Except.ok (GobVal.vint 2)]).1 =
        some "E" ∧
    (Broadcast false
      [Except.error "E", Except.ok (GobVal.vint 1), Except.ok (GobVal.vint 2)]).2 =
        none :=
  C8_broadcast_spec
    [Except.error "E", Except.ok (GobVal.vint 1), Except.ok (GobVal.vint 2)]
    "E" (GobVal.vint 1) (GobVal.vint 2) (List.Perm.refl _)

/-- C9: Client.Go with a nil done channel creates a buffered completion
channel of capacity 10 and issues the call; with a non-nil zero-capacity
done channel it panics (log.Panic) and never issues the call. -/
theorem C9_go_done_channel_spec (st : ClientState) (sm : String) (args : GobVal) :
    st.Go sm args DoneChan.nilChan = Except.ok (st.send (mkCall sm args), 10) ∧
    st.Go sm args (DoneChan.buffered 0) =
      Except.error "rpc: done channel is unbuffered" :=
  ⟨rfl, rfl⟩

/-- C10: parseOptins returns the default option for zero options or a nil
first option; rejects a longer list whose first option is non-nil with the
only-one-option error; rewrites a single option in place with the default
magic number, filling an empty codec kind; and every accepted option
carries the valid protocol tag of the server handshake check. -/
theorem C10_parse_optins_spec (opts : List (Option RpcOption)) (o r : RpcOption) :
    (parseOptins [] = Except.ok DefaultOption) ∧
    (opts.headD none = none → parseOptins opts = Except.ok DefaultOption) ∧
    (1 < opts.length → opts.headD none ≠ none →
      parseOptins opts = Except.error "only one option is allowed") ∧
    (parseOptins [some o] =
      Except.ok { o with
        MagicNumber := MagicNumber,
        CodecType := (if o.CodecType = "" then DefaultOption.CodecType else o.CodecType) }) ∧
    (parseOptins opts = Except.ok r →
      r.MagicNumber = MagicNumber ∧ serveConnMagicOK r = true) := by
  refine ⟨rfl, ?_, ?_, rfl, ?_⟩
  · intro h
    unfold parseOptins
    rw [if_pos (Or.inr h)]
  · intro hlen hne
    have hcond : ¬ (opts.length = 0 ∨ opts.headD none = none) := by
      rintro (h0 | h0)
      · omega
      · exact hne h0
    have hone : opts.length ≠ 1 := by omega
    unfold parseOptins
    rw [if_neg hcond, if_pos hone]
  · intro h
    unfold parseOptins at h
    by_cases hc1 : opts.length = 0 ∨ opts.headD none = none
    · rw [if_pos hc1] at h
      cases h
      exact ⟨rfl, rfl⟩
    · rw [if_neg hc1] at h
      by_cases hc2 : opts.length ≠ 1
      · rw [if_pos hc2] at h
        cases h
      · rw [if_neg hc2] at h
        rcases hcase : opts.headD none with _ | o2
        · rw [hcase] at h
          cases h
          exact ⟨rfl, rfl⟩
        · rw [hcase] at h
          cases h
          exact ⟨rfl, by simp [serveConnMagicOK]⟩

/-- Witness for C10: a nil first option among two yields the default; two
non-nil options are rejected; the accepted default carries the magic
number. -/
theorem C10_parse_optins_spec_witness :
    parseOptins [none, some optSample] = Except.ok DefaultOption ∧
    parseOptins [some optSample, some optSample] =
      Except.error "only one option is allowed" ∧
    DefaultOption.MagicNumber = MagicNumber := by
  have h1 := C10_parse_optins_spec [none, some optSample] optSample DefaultOption
  have h2 := C10_parse_optins_spec [some optSample, some optSample] optSample DefaultOption
  refine ⟨h1.2.1 (by decide), h2.2.2.1 (by decide) (by decide), ?_⟩
  exact (h1.2.2.2.2 (h1.2.1 (by decide))).1
